import Mathlib

/-!
# cert-observer: verification of the binding store, reconcilers, reporter and config loader

Shallow embedding of the Go sources of `ugurcancaykara/cert-observer`:

* `internal/cache/ingress_cache.go` — `CertificateInfo`, `HostInfo`, `IngressInfo`,
  `IngressCache` with `Add`, `Delete`, `GetAll`, `makeKey`.
* `internal/controller/ingress_controller.go` — `updateCache` (host collection, TLS
  host→certificate mapping, certificate-expiry fetch) and `extractCertificateExpiry`.
* `internal/controller/secret_controller.go` — `Reconcile` and `extractCertificateExpiry`.
* reporter (`sendReport`, `Start`) and config loading (`Load`, `LoadFromCRD`,
  Go's `time.ParseDuration`).

Go machine types are modelled as `Nat`/`Int` with explicit bounds where overflow
matters; Go maps are modelled as association lists (iteration order of a Go map is
unspecified; only the key→value content is semantically meaningful); fallible Go
functions returning `(T, error)` are modelled with `Option`/`Except`.
-/

namespace CertObserver

/-- Timestamps (`time.Time` values) are modelled abstractly as integers. -/
abbrev Time := Int

/-- Go struct `cache.CertificateInfo`: certificate name and optional expiry
(`Expires *time.Time`, `nil` modelled as `none`). -/
structure CertificateInfo where
  name : String
  expires : Option Time
  deriving DecidableEq, Repr

/-- Go struct `cache.HostInfo`: a host and its optional certificate. -/
structure HostInfo where
  host : String
  certificate : Option CertificateInfo
  deriving DecidableEq, Repr

/-- Go struct `cache.IngressInfo` (fields `Namespace`, `Name`, `Hosts`). -/
structure IngressInfo where
  ns : String
  name : String
  hosts : List HostInfo
  deriving DecidableEq, Repr

/-- Go `cache.makeKey`: `clusterName + "/" + namespace + "/" + name`. -/
def makeKey (clusterName ns name : String) : String :=
  clusterName ++ "/" ++ ns ++ "/" ++ name

/-- Go struct `cache.IngressCache`: the guarded map `items` is modelled as an
association list from key to entry (a Go map is unordered; the list order is a
representation artefact), plus the fixed `clusterName`. -/
structure IngressCache where
  clusterName : String
  items : List (String × IngressInfo)
  deriving DecidableEq, Repr

/-- Go `cache.NewIngressCache`. -/
def NewIngressCache (clusterName : String) : IngressCache :=
  { clusterName := clusterName, items := [] }

/-- Map-assignment on an association list: replace the value at `k` if present,
otherwise add the binding (models `m[k] = v` on a Go map). -/
def assocPut {β : Type} (k : String) (v : β) :
    List (String × β) → List (String × β)
  | [] => [(k, v)]
  | (k', v') :: rest =>
      if k' = k then (k, v) :: rest else (k', v') :: assocPut k v rest

/-- Go `IngressCache.Add`: `c.items[makeKey(c.clusterName, info.Namespace, info.Name)] = info`. -/
def IngressCache.Add (c : IngressCache) (info : IngressInfo) : IngressCache :=
  { c with items := assocPut (makeKey c.clusterName info.ns info.name) info c.items }

/-- Go `IngressCache.Delete`: `delete(c.items, makeKey(c.clusterName, namespace, name))`. -/
def IngressCache.Delete (c : IngressCache) (ns name : String) : IngressCache :=
  { c with items := c.items.filter (fun p => p.1 ≠ makeKey c.clusterName ns name) }

/-- The per-entry copy performed inside Go `IngressCache.GetAll`: a fresh
`IngressInfo`, a fresh `Hosts` slice, and for each bound certificate a fresh
`CertificateInfo` struct (the `Expires` field is copied as-is). At the level of
pure values this rebuild is the identity; pointer sharing of the `Expires` cell
is treated separately in the `Ptr` model below. -/
def copyInfo (info : IngressInfo) : IngressInfo :=
  { ns := info.ns
    name := info.name
    hosts := info.hosts.map (fun h =>
      { host := h.host
        certificate := match h.certificate with
          | none => none
          | some cert => some { name := cert.name, expires := cert.expires } }) }

/-- Go `IngressCache.GetAll`: one deep-copied entry per stored item. -/
def IngressCache.GetAll (c : IngressCache) : List IngressInfo :=
  c.items.map (fun p => copyInfo p.2)

/-- Modelled from the spec: the per-host step of the store operation
`UpdateCertificateExpiry` — a host binding whose certificate is named
`certName` gets `expiresAt` written into it; any other binding is unchanged. -/
def updateHostCert (certName : String) (expires : Option Time) (h : HostInfo) : HostInfo :=
  match h.certificate with
  | some cert =>
      if cert.name = certName then
        { h with certificate := some { cert with expires := expires } }
      else h
  | none => h

/-- Modelled from the spec: the store operation `UpdateCertificateExpiry`
(named `UpdateCertificate` in the Go sources, where it is invoked by
`SecretReconciler.Reconcile` and exercised by the cache tests, but its
definition is absent from the provided source files). Per the spec: for every
entry in `namespace` whose `HostBinding.certificate.name == certificateName`,
set `certificate.expiresAt = expiresAt` (including clearing it to unknown when
absent); entries in other namespaces or with a different certificate name are
untouched; no-op when nothing matches. -/
def IngressCache.UpdateCertificate (c : IngressCache) (ns certName : String)
    (expires : Option Time) : IngressCache :=
  { c with items := c.items.map (fun p =>
      if p.2.ns = ns then
        (p.1, { p.2 with hosts := p.2.hosts.map (updateHostCert certName expires) })
      else p) }

/-- Store states reachable through the cache API: every entry is stored under
the key computed from its own namespace and name, and keys are unique (a Go
map cannot hold two bindings for one key). -/
def WellFormed (c : IngressCache) : Prop :=
  (∀ p ∈ c.items, p.1 = makeKey c.clusterName p.2.ns p.2.name) ∧
  (c.items.map Prod.fst).Nodup

instance (c : IngressCache) : Decidable (WellFormed c) := by
  unfold WellFormed; infer_instance

/-! ## Binding-store lemmas -/

lemma copyInfo_eq (info : IngressInfo) : copyInfo info = info := by
  cases info with
  | mk ns name hosts =>
    simp only [copyInfo, IngressInfo.mk.injEq, true_and]
    induction hosts with
    | nil => rfl
    | cons h t ih =>
      cases h with
      | mk host cert =>
        cases cert <;> simp_all [List.map_cons]

lemma getAll_eq (c : IngressCache) : c.GetAll = c.items.map Prod.snd := by
  simp [IngressCache.GetAll, copyInfo_eq]

lemma filter_map_assocPut (cluster : String) (e : IngressInfo)
    (items : List (String × IngressInfo))
    (hwf : ∀ p ∈ items, p.1 = makeKey cluster p.2.ns p.2.name)
    (hnd : (items.map Prod.fst).Nodup) :
    ((assocPut (makeKey cluster e.ns e.name) e items).map Prod.snd).filter
      (fun i => decide (i.ns = e.ns ∧ i.name = e.name)) = [e] := by
  induction items with
  | nil => simp [assocPut]
  | cons hd rest ih =>
    obtain ⟨k', v'⟩ := hd
    simp only [List.map_cons, List.nodup_cons] at hnd
    by_cases hk : k' = makeKey cluster e.ns e.name
    · subst hk
      simp only [assocPut, if_pos rfl, if_true, List.map_cons, List.filter_cons]
      have hrest : (rest.map Prod.snd).filter
          (fun i => decide (i.ns = e.ns ∧ i.name = e.name)) = [] := by
        rw [List.filter_eq_nil_iff]
        intro a ha
        simp only [List.mem_map] at ha
        obtain ⟨p, hp, rfl⟩ := ha
        simp only [decide_eq_true_eq, not_and]
        intro hns hname
        have hkey := hwf p (List.mem_cons_of_mem _ hp)
        have hp1 : p.1 = makeKey cluster e.ns e.name := by rw [hkey, hns, hname]
        exact absurd (hp1 ▸ List.mem_map_of_mem Prod.fst hp) hnd.1
      rw [if_pos (show decide (True ∧ True) = true from rfl), hrest]
    · simp only [assocPut, if_neg hk, List.map_cons, List.filter_cons]
      have hv' : decide (v'.ns = e.ns ∧ v'.name = e.name) = false := by
        simp only [decide_eq_false_iff_not, not_and]
        intro hns hname
        have hkey := hwf (k', v') (List.mem_cons_self _ _)
        exact hk (by simpa [hns, hname] using hkey)
      rw [hv']
      simp only [Bool.false_eq_true, if_false]
      exact ih (fun p hp => hwf p (List.mem_cons_of_mem _ hp)) hnd.2

/-- A sample well-formed store used by concrete witnesses: two entries in
namespace `default` (one sharing a certificate name with the other) and one in
namespace `production`. -/
def sampleCache : IngressCache :=
  { clusterName := "test-cluster"
    items :=
      [ (makeKey "test-cluster" "default" "webapp",
          { ns := "default", name := "webapp",
            hosts := [ { host := "webapp.local",
                         certificate := some { name := "app-tls", expires := none } } ] }),
        (makeKey "test-cluster" "default" "api",
          { ns := "default", name := "api",
            hosts := [ { host := "api.local",
                         certificate := some { name := "other-tls", expires := some 7 } } ] }),
        (makeKey "test-cluster" "production" "webapp",
          { ns := "production", name := "webapp",
            hosts := [ { host := "webapp.prod.local",
                         certificate := some { name := "app-tls", expires := none } } ] }) ] }

/-! ## Claim theorems: binding store -/

/-- C3: for every well-formed store state and entry `e`, after `Add` (the
store's upsert) the snapshot contains exactly one entry whose
`(namespace, name)` key equals `e`'s, and that entry equals `e`: upsert
replaces any previous entry for the key and never produces duplicates. -/
theorem upsert_snapshot_unique (c : IngressCache) (e : IngressInfo)
    (h : WellFormed c) :
    ((c.Add e).GetAll).filter (fun i => decide (i.ns = e.ns ∧ i.name = e.name)) = [e] := by
  rw [getAll_eq]
  exact filter_map_assocPut c.clusterName e c.items h.1 h.2

/-- Witness for C3: the upsert-uniqueness theorem applied to the concrete
sample store, replacing the existing `default/webapp` entry. -/
theorem upsert_snapshot_unique_witness :
    WellFormed sampleCache ∧
    ((sampleCache.Add
        { ns := "default", name := "webapp",
          hosts := [ { host := "webapp2.local", certificate := none } ] }).GetAll).filter
      (fun i => decide (i.ns = "default" ∧ i.name = "webapp")) =
      [ { ns := "default", name := "webapp",
          hosts := [ { host := "webapp2.local", certificate := none } ] } ] :=
  ⟨by decide,
    upsert_snapshot_unique sampleCache
      { ns := "default", name := "webapp",
        hosts := [ { host := "webapp2.local", certificate := none } ] } (by decide)⟩

/-- C1: the certificate-expiry update sets `expires = t` on every host binding
whose certificate is named `cn` inside an entry of namespace `ns`, leaves every
entry of another namespace (and every binding with a different or absent
certificate name) unchanged, and is a total no-op when no entry matches.
Stated entrywise over the stored items: cluster label and size are preserved,
each position is rewritten exactly as described, and the per-host rewrite is
characterised for all three certificate cases. -/
theorem updateCertificateExpiry_spec (c : IngressCache) (ns cn : String) (t : Option Time) :
    (c.UpdateCertificate ns cn t).clusterName = c.clusterName ∧
    (c.UpdateCertificate ns cn t).items.length = c.items.length ∧
    (∀ (i : Nat) (k : String) (info : IngressInfo), c.items[i]? = some (k, info) →
      (info.ns ≠ ns → (c.UpdateCertificate ns cn t).items[i]? = some (k, info)) ∧
      (info.ns = ns → (c.UpdateCertificate ns cn t).items[i]? =
        some (k, { info with hosts := info.hosts.map (updateHostCert cn t) }))) ∧
    (∀ h : HostInfo,
      (h.certificate = none → updateHostCert cn t h = h) ∧
      (∀ cert, h.certificate = some cert →
        (cert.name = cn → updateHostCert cn t h =
            { h with certificate := some { name := cert.name, expires := t } }) ∧
        (cert.name ≠ cn → updateHostCert cn t h = h))) ∧
    ((∀ p ∈ c.items, p.2.ns = ns →
        ∀ hb ∈ p.2.hosts, ∀ cert, hb.certificate = some cert → cert.name ≠ cn) →
      c.UpdateCertificate ns cn t = c) := by
  refine ⟨rfl, by simp [IngressCache.UpdateCertificate], ?_, ?_, ?_⟩
  · intro i k info hi
    have hmap : (c.UpdateCertificate ns cn t).items[i]? =
        (c.items[i]?).map (fun (p : String × IngressInfo) =>
          if p.2.ns = ns then
            (p.1, { p.2 with hosts := p.2.hosts.map (updateHostCert cn t) })
          else p) := by
      simp [IngressCache.UpdateCertificate, List.getElem?_map]
    constructor
    · intro hne
      rw [hmap, hi]
      simp [if_neg hne]
    · intro heq
      rw [hmap, hi]
      simp [if_pos heq]
  · intro h
    constructor
    · intro hnone
      simp [updateHostCert, hnone]
    · intro cert hcert
      constructor
      · intro hname
        simp [updateHostCert, hcert, if_pos hname]
      · intro hname
        simp [updateHostCert, hcert, if_neg hname]
  · intro hnomatch
    have : c.items.map (fun p =>
        if p.2.ns = ns then
          (p.1, { p.2 with hosts := p.2.hosts.map (updateHostCert cn t) })
        else p) = c.items := by
      have hid : ∀ p ∈ c.items,
          (if p.2.ns = ns then
            (p.1, { p.2 with hosts := p.2.hosts.map (updateHostCert cn t) })
          else p) = p := by
        intro p hp
        by_cases hns : p.2.ns = ns
        · have hhosts : p.2.hosts.map (updateHostCert cn t) = p.2.hosts := by
            have : ∀ hb ∈ p.2.hosts, updateHostCert cn t hb = hb := by
              intro hb hhb
              cases hcert : hb.certificate with
              | none => simp [updateHostCert, hcert]
              | some cert =>
                  have := hnomatch p hp hns hb hhb cert hcert
                  simp [updateHostCert, hcert, if_neg this]
            calc p.2.hosts.map (updateHostCert cn t) = p.2.hosts.map id :=
                  List.map_congr_left this
              _ = p.2.hosts := List.map_id _
          rw [if_pos hns, hhosts]
        · rw [if_neg hns]
      calc c.items.map _ = c.items.map id := List.map_congr_left hid
        _ = c.items := List.map_id _
    simp only [IngressCache.UpdateCertificate, this]

/-- Witness for C1: concrete evaluation on the sample store — the matching
`default/webapp` binding gets expiry 5, the `production/webapp` entry with the
same certificate name is untouched — each fact obtained by applying the update
theorem at this input. -/
theorem updateCertificateExpiry_spec_witness :
    (sampleCache.UpdateCertificate "default" "app-tls" (some 5)).items[0]? =
      some (makeKey "test-cluster" "default" "webapp",
        { ns := "default", name := "webapp",
          hosts := [ { host := "webapp.local",
                       certificate := some { name := "app-tls", expires := some 5 } } ] }) ∧
    (sampleCache.UpdateCertificate "default" "app-tls" (some 5)).items[2]? =
      some (makeKey "test-cluster" "production" "webapp",
        { ns := "production", name := "webapp",
          hosts := [ { host := "webapp.prod.local",
                       certificate := some { name := "app-tls", expires := none } } ] }) := by
  constructor
  · exact ((updateCertificateExpiry_spec sampleCache "default" "app-tls"
      (some 5)).2.2.1 0 _ _ rfl).2 rfl
  · exact ((updateCertificateExpiry_spec sampleCache "default" "app-tls"
      (some 5)).2.2.1 2 _ _ rfl).1 (by decide)

/-! ## Pointer-level model of `GetAll` (snapshot isolation)

`CertificateInfo.Expires` is a `*time.Time` in Go. The per-entry copy in
`GetAll` builds a fresh `CertificateInfo` struct but copies the `Expires`
field as-is (`Expires: host.Certificate.Expires`), i.e. it copies the
pointer, not the pointed-to `time.Time` cell. To reason about that sharing,
this refinement models `Expires` as an optional heap location and the
`time.Time` cells as a heap `Loc → Time`. -/

/-- A heap location of a `time.Time` cell. -/
abbrev Loc := Nat

/-- Pointer-level `cache.CertificateInfo`: `expires` is the `*time.Time`
pointer (a heap location), not the timestamp value. -/
structure CertificateInfoP where
  name : String
  expires : Option Loc
  deriving DecidableEq, Repr

/-- Pointer-level `cache.HostInfo`. -/
structure HostInfoP where
  host : String
  certificate : Option CertificateInfoP
  deriving DecidableEq, Repr

/-- Pointer-level `cache.IngressInfo`. -/
structure IngressInfoP where
  ns : String
  name : String
  hosts : List HostInfoP
  deriving DecidableEq, Repr

/-- The per-entry copy of Go `IngressCache.GetAll` at pointer level: fresh
`IngressInfo`, fresh `Hosts` slice, fresh `CertificateInfo` struct, and the
`Expires` pointer copied verbatim (`Expires: host.Certificate.Expires`). -/
def copyInfoP (info : IngressInfoP) : IngressInfoP :=
  { ns := info.ns
    name := info.name
    hosts := info.hosts.map (fun h =>
      { host := h.host
        certificate := match h.certificate with
          | none => none
          | some cert => some { name := cert.name, expires := cert.expires } }) }

/-- Go `IngressCache.GetAll` at pointer level. -/
def getAllP (items : List (String × IngressInfoP)) : List IngressInfoP :=
  items.map (fun p => copyInfoP p.2)

/-- The `Expires` pointer of the first host binding of the first entry of a
snapshot (the cell a caller can write through). -/
def firstExpiryLoc : List IngressInfoP → Option Loc
  | [] => none
  | info :: _ =>
      match info.hosts with
      | [] => none
      | h :: _ =>
          match h.certificate with
          | none => none
          | some cert => cert.expires

/-- A store write through a `*time.Time` pointer: update the pointed-to cell. -/
def heapWrite (heap : Loc → Time) (l : Loc) (v : Time) : Loc → Time :=
  fun l' => if l' = l then v else heap l'

/-- Dereference: the expiry value a snapshot of `items` observes for the first
binding, under heap `heap`. -/
def readFirstExpiry (heap : Loc → Time) (items : List (String × IngressInfoP)) : Option Time :=
  (firstExpiryLoc (getAllP items)).map heap

/-- The store contents used to exhibit the shared expiry cell: one entry whose
certificate's `Expires` pointer is location 0. -/
def itemsShared : List (String × IngressInfoP) :=
  [ (makeKey "test-cluster" "default" "webapp",
      { ns := "default", name := "webapp",
        hosts := [ { host := "webapp.local",
                     certificate := some { name := "webapp-tls", expires := some 0 } } ] }) ]

/-- C7 (failing-input demonstration): `GetAll` copies the `Expires` pointer,
so the snapshot and the store share the `time.Time` cell. At the concrete
store `itemsShared` with cell 0 holding 100: the returned snapshot exposes
location 0 — the very cell the store's entry points to — and after the caller
writes 200 through that pointer, a subsequent snapshot observes 200 instead of
100. The snapshot is therefore not a fully independent deep copy: mutating the
expiry timestamp reached from a snapshot changes later snapshots. -/
theorem getAll_expiry_pointer_shared :
    firstExpiryLoc (getAllP itemsShared) = some 0 ∧
    firstExpiryLoc (getAllP itemsShared) = firstExpiryLoc (itemsShared.map Prod.snd) ∧
    readFirstExpiry (fun _ => (100 : Time)) itemsShared = some 100 ∧
    readFirstExpiry (heapWrite (fun _ => (100 : Time)) 0 200) itemsShared = some 200 ∧
    (100 : Time) ≠ 200 := by
  refine ⟨rfl, rfl, rfl, rfl, by decide⟩

/-! ## Certificate parsing (`extractCertificateExpiry`)

`extractCertificateExpiry` appears verbatim in both `ingress_controller.go`
and `secret_controller.go`. The standard-library collaborators `pem.Decode`
and `x509.ParseCertificate` are external to this repository and are modelled
as abstract total functions: `pemDecode` returns the decoded block's `Bytes`
(or `none` when no PEM block is found), `x509Parse` returns the parsed
certificate (of which only `NotAfter` is read) or an error. -/

/-- Bytes of a Go `[]byte`, each in `[0, 256)` (the bounds play no role here). -/
abbrev Bytes := List Nat

/-- The part of Go's `x509.Certificate` that this program reads. -/
structure GoCert where
  notAfter : Time
  deriving DecidableEq, Repr

/-- The three failure modes of `extractCertificateExpiry`, in source order:
`"secret does not contain tls.crt"`, `"failed to decode PEM block"`,
`"failed to parse certificate: ..."`. -/
inductive CertParseError
  | missingData
  | decodeError
  | parseError
  deriving DecidableEq, Repr

/-- Go `corev1.Secret` as read by this program: its `Type` and `Data` map. -/
structure GoSecret where
  secretType : String
  data : List (String × Bytes)
  deriving DecidableEq, Repr

/-- Go `extractCertificateExpiry` (identical in `IngressReconciler` and
`SecretReconciler`): look up `Data["tls.crt"]`, PEM-decode it, X.509-parse the
block bytes, and return the certificate's `NotAfter`. -/
def extractCertificateExpiry (pemDecode : Bytes → Option Bytes)
    (x509Parse : Bytes → Except Unit GoCert) (secret : GoSecret) :
    Except CertParseError Time :=
  match secret.data.lookup "tls.crt" with
  | none => .error .missingData
  | some certData =>
      match pemDecode certData with
      | none => .error .decodeError
      | some blockBytes =>
          match x509Parse blockBytes with
          | .error _ => .error .parseError
          | .ok cert => .ok cert.notAfter

/-- C6: the parser's outcomes are exactly classified: `missingData` iff
`tls.crt` is absent from the payload; `decodeError` iff the field is present
but no PEM block decodes; `parseError` iff a block decodes but the X.509 parse
fails; and success returns exactly the parsed certificate's `NotAfter`. -/
theorem extractCertificateExpiry_classification (pd : Bytes → Option Bytes)
    (xp : Bytes → Except Unit GoCert) (s : GoSecret) :
    (extractCertificateExpiry pd xp s = .error .missingData ↔
      s.data.lookup "tls.crt" = none) ∧
    (extractCertificateExpiry pd xp s = .error .decodeError ↔
      ∃ cd, s.data.lookup "tls.crt" = some cd ∧ pd cd = none) ∧
    (extractCertificateExpiry pd xp s = .error .parseError ↔
      ∃ cd b, s.data.lookup "tls.crt" = some cd ∧ pd cd = some b ∧
        ∃ e, xp b = .error e) ∧
    (∀ t : Time, extractCertificateExpiry pd xp s = .ok t ↔
      ∃ cd b cert, s.data.lookup "tls.crt" = some cd ∧ pd cd = some b ∧
        xp b = .ok cert ∧ cert.notAfter = t) := by
  cases hcd : s.data.lookup "tls.crt" with
  | none => simp [extractCertificateExpiry, hcd]
  | some cd =>
    cases hpd : pd cd with
    | none => simp [extractCertificateExpiry, hcd, hpd]
    | some b =>
      cases hxp : xp b with
      | error e => simp [extractCertificateExpiry, hcd, hpd, hxp]
      | ok cert => simp [extractCertificateExpiry, hcd, hpd, hxp, eq_comm]

/-! ## Secret reconciler (`SecretReconciler.Reconcile`) -/

/-- Outcome of the reconciler's `r.Get` call for the secret: deleted
(`IgnoreNotFound(err) == nil`), some other lookup error, or the secret. -/
inductive GetSecretResult
  | notFound
  | getError
  | found (s : GoSecret)
  deriving Repr

/-- Go `SecretReconciler.Reconcile`: on deletion, clear the expiry for that
certificate name; on another lookup error, fail; on a non-TLS secret, return
successfully without touching the cache; on a parse failure, log and return
successfully without touching the cache; otherwise write the parsed expiry
into the cache. Returns the `(result, cache-after)` pair. -/
def secretReconcile (pd : Bytes → Option Bytes) (xp : Bytes → Except Unit GoCert)
    (get : GetSecretResult) (ns name : String) (c : IngressCache) :
    Except String Unit × IngressCache :=
  match get with
  | .notFound => (.ok (), c.UpdateCertificate ns name none)
  | .getError => (.error "failed to get secret", c)
  | .found s =>
      if s.secretType ≠ "kubernetes.io/tls" then (.ok (), c)
      else
        match extractCertificateExpiry pd xp s with
        | .error _ => (.ok (), c)
        | .ok t => (.ok (), c.UpdateCertificate ns name (some t))

/-- C10: for a secret that exists with a type other than `kubernetes.io/tls`,
the secret reconciler returns success and the binding store is returned
exactly as it was — a non-TLS secret can never create, update or clear any
certificate expiry. -/
theorem secretReconcile_nonTLS_noop (pd : Bytes → Option Bytes)
    (xp : Bytes → Except Unit GoCert) (s : GoSecret) (ns name : String)
    (c : IngressCache) (h : s.secretType ≠ "kubernetes.io/tls") :
    secretReconcile pd xp (.found s) ns name c = (.ok (), c) := by
  simp [secretReconcile, h]

/-- Witness for C10: an existing `Opaque`-typed secret leaves the concrete
sample store untouched and reconciliation reports success. -/
theorem secretReconcile_nonTLS_noop_witness :
    ("Opaque" : String) ≠ "kubernetes.io/tls" ∧
    secretReconcile (fun _ => none) (fun _ => .error ())
      (.found { secretType := "Opaque", data := [] }) "default" "webapp-tls"
      sampleCache = (.ok (), sampleCache) :=
  ⟨by decide,
    secretReconcile_nonTLS_noop (fun _ => none) (fun _ => .error ())
      { secretType := "Opaque", data := [] } "default" "webapp-tls" sampleCache
      (by decide)⟩

/-! ## Ingress reconciler (`IngressReconciler.updateCache`)

A Go map's iteration order is unspecified; the host set and the two
string-keyed maps below are modelled as insertion-ordered duplicate-free
lists, which fixes one admissible order. The certificate-resource lookup
(`r.Get` on the secret, in the ingress's namespace) is the abstract
collaborator `getSecret`. -/

/-- The part of `networkingv1.IngressRule` that is read: `Host`. -/
structure IngressRule where
  host : String
  deriving DecidableEq, Repr

/-- The part of `networkingv1.IngressTLS` that is read: `Hosts`, `SecretName`. -/
structure IngressTLS where
  hosts : List String
  secretName : String
  deriving DecidableEq, Repr

/-- The part of `networkingv1.Ingress` that `updateCache` reads. -/
structure GoIngress where
  ns : String
  name : String
  rules : List IngressRule
  tls : List IngressTLS
  deriving DecidableEq, Repr

/-- Set-insert on the insertion-ordered host set (`hosts[h] = true`). -/
def setInsert (h : String) (acc : List String) : List String :=
  if h ∈ acc then acc else acc ++ [h]

/-- `updateCache` step 1a: the hosts declared by the rules, skipping `""`. -/
def collectFromRules (rules : List IngressRule) : List String :=
  rules.foldl (fun acc r => if r.host ≠ "" then setInsert r.host acc else acc) []

/-- `updateCache` step 1b: the hosts declared by the TLS sections, skipping `""`. -/
def collectFromTLS (tls : List IngressTLS) : List String :=
  tls.foldl (fun acc t =>
    t.hosts.foldl (fun acc2 h => if h ≠ "" then setInsert h acc2 else acc2) acc) []

/-- `updateCache` step 1: rule hosts, falling back to TLS hosts when none. -/
def hostsOf (ing : GoIngress) : List String :=
  let fromRules := collectFromRules ing.rules
  if fromRules.isEmpty then collectFromTLS ing.tls else fromRules

/-- Inner loop of the `hostToCert` construction: `hostToCert[host] = tls.SecretName`
for each listed host, guarded by `tls.SecretName != ""`. -/
def putHosts (secretName : String) : List String → List (String × String) →
    List (String × String)
  | [], acc => acc
  | h :: rest, acc =>
      putHosts secretName rest
        (if secretName ≠ "" then assocPut h secretName acc else acc)

/-- `updateCache` step 2 worker over the TLS sections. -/
def hostToCertAux : List IngressTLS → List (String × String) → List (String × String)
  | [], acc => acc
  | t :: rest, acc => hostToCertAux rest (putHosts t.secretName t.hosts acc)

/-- `updateCache` step 2: the hostname → certificate-name map. -/
def hostToCert (tls : List IngressTLS) : List (String × String) :=
  hostToCertAux tls []

/-- The per-secret fetch of `updateCache` step 3: a failed lookup or a failed
parse yields a `CertificateInfo` with the name and no expiry; a successful
parse yields the parsed expiry. -/
def fetchCert (pd : Bytes → Option Bytes) (xp : Bytes → Except Unit GoCert)
    (getSecret : String → Option GoSecret) (name : String) : CertificateInfo :=
  match getSecret name with
  | none => { name := name, expires := none }
  | some s =>
      match extractCertificateExpiry pd xp s with
      | .error _ => { name := name, expires := none }
      | .ok t => { name := name, expires := some t }

/-- `updateCache` step 3 worker: fetch each TLS section's certificate once
(`if _, exists := certExpiry[name]; !exists`), keyed by secret name. -/
def certExpiryAux (fetch : String → CertificateInfo) :
    List IngressTLS → List (String × CertificateInfo) →
    List (String × CertificateInfo)
  | [], acc => acc
  | t :: rest, acc =>
      certExpiryAux fetch rest
        (if t.secretName ≠ "" then
          if (acc.lookup t.secretName).isSome then acc
          else acc ++ [(t.secretName, fetch t.secretName)]
        else acc)

/-- `updateCache` step 3: the certificate-name → `CertificateInfo` map. -/
def certExpiryMap (pd : Bytes → Option Bytes) (xp : Bytes → Except Unit GoCert)
    (getSecret : String → Option GoSecret) (tls : List IngressTLS) :
    List (String × CertificateInfo) :=
  certExpiryAux (fetchCert pd xp getSecret) tls []

/-- Go `updateCache` steps 1–4: the `IngressInfo` that is built and then
passed to `Cache.Add`. Each collected host gets a binding, with a certificate
exactly when both maps have it; when no host was collected at all, a single
binding with empty host and no certificate is emitted. -/
def buildIngressInfo (pd : Bytes → Option Bytes) (xp : Bytes → Except Unit GoCert)
    (getSecret : String → Option GoSecret) (ing : GoIngress) : IngressInfo :=
  let hosts := hostsOf ing
  let h2c := hostToCert ing.tls
  let ce := certExpiryMap pd xp getSecret ing.tls
  { ns := ing.ns
    name := ing.name
    hosts :=
      if hosts.isEmpty then [{ host := "", certificate := none }]
      else hosts.map (fun h =>
        { host := h
          certificate :=
            match h2c.lookup h with
            | none => none
            | some cn => ce.lookup cn }) }

/-- Go `updateCache` step 5: upsert the built entry (the Go function has no
failing path — it always reaches `r.Cache.Add` and returns `nil`). -/
def updateCache (pd : Bytes → Option Bytes) (xp : Bytes → Except Unit GoCert)
    (getSecret : String → Option GoSecret) (ing : GoIngress) (c : IngressCache) :
    IngressCache :=
  c.Add (buildIngressInfo pd xp getSecret ing)

/-! ## Lookup lemmas for the reconciler's maps -/

lemma lookup_cons_self {β : Type} (k : String) (v : β) (l : List (String × β)) :
    ((k, v) :: l).lookup k = some v := by
  simp [List.lookup_cons]

lemma lookup_cons_ne {β : Type} {k k' : String} (h : k' ≠ k) (v : β)
    (l : List (String × β)) :
    ((k, v) :: l).lookup k' = l.lookup k' := by
  simp [List.lookup_cons, beq_false_of_ne h]

lemma lookup_assocPut {β : Type} (k : String) (v : β) (l : List (String × β))
    (k' : String) :
    (assocPut k v l).lookup k' = if k' = k then some v else l.lookup k' := by
  induction l with
  | nil =>
    by_cases h : k' = k
    · subst h; simp [assocPut, lookup_cons_self]
    · simp only [assocPut]
      rw [lookup_cons_ne h, if_neg h]
  | cons hd rest ih =>
    obtain ⟨k1, v1⟩ := hd
    by_cases h1 : k1 = k
    · subst h1
      by_cases h2 : k' = k1
      · subst h2; simp [assocPut, lookup_cons_self]
      · simp [assocPut, lookup_cons_ne h2, h2]
    · by_cases h2 : k' = k1
      · subst h2
        have hne : ¬k' = k := fun hc => h1 hc
        simp [assocPut, h1, lookup_cons_self, hne]
      · simp [assocPut, h1, lookup_cons_ne h2, ih]

lemma lookup_append_some {β : Type} {l : List (String × β)} {k : String} {v : β}
    (h : l.lookup k = some v) (l' : List (String × β)) :
    (l ++ l').lookup k = some v := by
  induction l with
  | nil => simp [List.lookup] at h
  | cons hd rest ih =>
    obtain ⟨k1, v1⟩ := hd
    by_cases h1 : k = k1
    · subst h1
      rw [lookup_cons_self] at h
      simpa [lookup_cons_self] using h
    · rw [lookup_cons_ne h1] at h
      rw [List.cons_append, lookup_cons_ne h1]
      exact ih h

lemma lookup_append_none {β : Type} {l : List (String × β)} {k : String}
    (h : l.lookup k = none) (k0 : String) (v0 : β) :
    (l ++ [(k0, v0)]).lookup k = if k = k0 then some v0 else none := by
  induction l with
  | nil =>
    by_cases h0 : k = k0
    · subst h0; simp [lookup_cons_self]
    · simp only [List.nil_append]
      rw [lookup_cons_ne h0, if_neg h0]
      exact h
  | cons hd rest ih =>
    obtain ⟨k1, v1⟩ := hd
    by_cases h1 : k = k1
    · subst h1
      rw [lookup_cons_self] at h
      cases h
    · rw [lookup_cons_ne h1] at h
      rw [List.cons_append, lookup_cons_ne h1]
      exact ih h

/-- Every value reachable in the `hostToCert` inner loop either was already in
the accumulator or is the (nonempty) secret name being inserted. -/
lemma putHosts_lookup_val (Q : String → Prop) (sn : String) :
    ∀ (hs : List String) (acc : List (String × String)),
    (∀ k v, acc.lookup k = some v → Q v) → (sn ≠ "" → Q sn) →
    ∀ k v, (putHosts sn hs acc).lookup k = some v → Q v := by
  intro hs
  induction hs with
  | nil => intro acc hacc _ k v hl; exact hacc k v hl
  | cons h rest ih =>
    intro acc hacc hsn k v hl
    refine ih _ ?_ hsn k v hl
    intro k' v' hk'
    by_cases hg : sn ≠ ""
    · rw [if_pos hg, lookup_assocPut] at hk'
      by_cases hke : k' = h
      · rw [if_pos hke] at hk'
        exact (Option.some.injEq _ _ ▸ hk') ▸ hsn hg
      · rw [if_neg hke] at hk'
        exact hacc k' v' hk'
    · rw [if_neg hg] at hk'
      exact hacc k' v' hk'

/-- Every certificate name stored in `hostToCert` is the nonempty `SecretName`
of some TLS section. -/
lemma hostToCertAux_val (Q : String → Prop) :
    ∀ (tls : List IngressTLS) (acc : List (String × String)),
    (∀ k v, acc.lookup k = some v → Q v) →
    (∀ t ∈ tls, t.secretName ≠ "" → Q t.secretName) →
    ∀ k v, (hostToCertAux tls acc).lookup k = some v → Q v := by
  intro tls
  induction tls with
  | nil => intro acc hacc _ k v hl; exact hacc k v hl
  | cons t rest ih =>
    intro acc hacc htls k v hl
    refine ih _ ?_ (fun t' ht' => htls t' (List.mem_cons_of_mem _ ht')) k v hl
    exact putHosts_lookup_val Q t.secretName t.hosts acc hacc
      (htls t (List.mem_cons_self _ _))

/-- In `certExpiryMap`, once a secret name is a (guarded) key — or appears as
the nonempty `SecretName` of a remaining TLS section — the final map binds it
to exactly the fetched `CertificateInfo`. -/
lemma certExpiryAux_lookup_some (fetch : String → CertificateInfo) :
    ∀ (tls : List IngressTLS) (acc : List (String × CertificateInfo)) (k : String),
    (acc.lookup k = some (fetch k) ∨
      (acc.lookup k = none ∧ ∃ t ∈ tls, t.secretName = k ∧ k ≠ "")) →
    (certExpiryAux fetch tls acc).lookup k = some (fetch k) := by
  intro tls
  induction tls with
  | nil =>
    intro acc k hyp
    rcases hyp with h | ⟨_, t, ht, _⟩
    · exact h
    · cases ht
  | cons t rest ih =>
    intro acc k hyp
    show (certExpiryAux fetch rest _).lookup k = some (fetch k)
    rcases hyp with hsome | ⟨hnone, t', ht', hname, hke⟩
    · refine ih _ k (Or.inl ?_)
      by_cases hg : t.secretName ≠ ""
      · rw [if_pos hg]
        by_cases hpres : (acc.lookup t.secretName).isSome
        · rw [if_pos hpres]; exact hsome
        · rw [if_neg hpres]
          exact lookup_append_some hsome _
      · rw [if_neg hg]; exact hsome
    · rcases List.mem_cons.mp ht' with rfl | hrest
      · -- the head section carries `k`
        refine ih _ k (Or.inl ?_)
        rw [if_pos (hname ▸ hke)]
        by_cases hpres : (acc.lookup t'.secretName).isSome
        · rw [hname] at hpres
          rw [hnone] at hpres
          simp at hpres
        · rw [if_neg hpres, hname]
          rw [lookup_append_none hnone k (fetch k), if_pos rfl]
      · -- `k` comes from a later section
        refine ih _ k ?_
        by_cases hg : t.secretName ≠ ""
        · rw [if_pos hg]
          by_cases hpres : (acc.lookup t.secretName).isSome
          · rw [if_pos hpres]
            exact Or.inr ⟨hnone, t', hrest, hname, hke⟩
          · rw [if_neg hpres]
            rw [lookup_append_none hnone t.secretName (fetch t.secretName)]
            by_cases hkt : k = t.secretName
            · subst hkt
              exact Or.inl (by rw [if_pos rfl])
            · rw [if_neg hkt]
              exact Or.inr ⟨rfl, t', hrest, hname, hke⟩
        · rw [if_neg hg]
          exact Or.inr ⟨hnone, t', hrest, hname, hke⟩

/-! ## Claim theorems: ingress reconciler -/

/-- C4: the reconciler's host collection uses the rule hosts; when these yield
nothing it falls back to the TLS hosts; and when even that yields nothing the
built entry has exactly one binding, with empty host and no certificate — so
an upserted entry never has an empty host list. Namespace and name are carried
over from the route. -/
theorem buildIngressInfo_hosts (pd : Bytes → Option Bytes)
    (xp : Bytes → Except Unit GoCert) (gs : String → Option GoSecret)
    (ing : GoIngress) :
    (buildIngressInfo pd xp gs ing).ns = ing.ns ∧
    (buildIngressInfo pd xp gs ing).name = ing.name ∧
    (collectFromRules ing.rules ≠ [] → hostsOf ing = collectFromRules ing.rules) ∧
    (collectFromRules ing.rules = [] → hostsOf ing = collectFromTLS ing.tls) ∧
    (hostsOf ing = [] →
      (buildIngressInfo pd xp gs ing).hosts = [{ host := "", certificate := none }]) ∧
    (buildIngressInfo pd xp gs ing).hosts ≠ [] := by
  refine ⟨rfl, rfl, ?_, ?_, ?_, ?_⟩
  · intro h
    have : (collectFromRules ing.rules).isEmpty = false := by
      cases hE : collectFromRules ing.rules with
      | nil => exact absurd hE h
      | cons a l => simp
    simp [hostsOf, this]
  · intro h
    simp [hostsOf, h]
  · intro h
    simp [buildIngressInfo, h]
  · cases hE : hostsOf ing with
    | nil => simp [buildIngressInfo, hE]
    | cons a l => simp [buildIngressInfo, hE]

/-- Witness for C4: a route with no rules and no TLS sections produces the
single sentinel binding and a nonempty host list. -/
theorem buildIngressInfo_hosts_witness :
    (buildIngressInfo (fun _ => none) (fun _ => .error ()) (fun _ => none)
        { ns := "default", name := "bare", rules := [], tls := [] }).hosts =
      [{ host := "", certificate := none }] ∧
    (buildIngressInfo (fun _ => none) (fun _ => .error ()) (fun _ => none)
        { ns := "default", name := "bare", rules := [], tls := [] }).hosts ≠ [] :=
  ⟨(buildIngressInfo_hosts (fun _ => none) (fun _ => .error ()) (fun _ => none)
      { ns := "default", name := "bare", rules := [], tls := [] }).2.2.2.2.1 rfl,
    (buildIngressInfo_hosts (fun _ => none) (fun _ => .error ()) (fun _ => none)
      { ns := "default", name := "bare", rules := [], tls := [] }).2.2.2.2.2⟩

/-- C5: a host whose TLS section names a certificate that the lookup cannot
supply (missing secret, or a secret whose certificate fails to parse) still
yields a binding carrying that certificate name with no expiry — the binding
is never dropped, and `updateCache` (which has no failing path) still upserts
the entry. -/
theorem missing_cert_keeps_binding (pd : Bytes → Option Bytes)
    (xp : Bytes → Except Unit GoCert) (gs : String → Option GoSecret)
    (ing : GoIngress) (h cn : String)
    (hh : h ∈ hostsOf ing)
    (hcn : (hostToCert ing.tls).lookup h = some cn)
    (hfail : gs cn = none ∨
      ∃ s, gs cn = some s ∧ ∃ e, extractCertificateExpiry pd xp s = .error e) :
    { host := h, certificate := some { name := cn, expires := none } } ∈
      (buildIngressInfo pd xp gs ing).hosts := by
  -- the certificate name is the nonempty secret name of some TLS section
  have hQ : cn ≠ "" ∧ ∃ t ∈ ing.tls, t.secretName = cn := by
    refine hostToCertAux_val (fun v => v ≠ "" ∧ ∃ t ∈ ing.tls, t.secretName = v)
      ing.tls [] (fun k v hv => by simp [List.lookup] at hv)
      (fun t ht hne => ⟨hne, t, ht, rfl⟩) h cn hcn
  -- the fetched certificate carries no expiry
  have hfetch : fetchCert pd xp gs cn = { name := cn, expires := none } := by
    rcases hfail with hnone | ⟨s, hs, e, he⟩
    · simp [fetchCert, hnone]
    · simp [fetchCert, hs, he]
  -- the certExpiry map therefore binds `cn` to that certificate
  have hce : (certExpiryMap pd xp gs ing.tls).lookup cn =
      some { name := cn, expires := none } := by
    rw [certExpiryMap, certExpiryAux_lookup_some (fetchCert pd xp gs) ing.tls [] cn
      (Or.inr ⟨by simp [List.lookup], ?_⟩), hfetch]
    obtain ⟨t, ht, hts⟩ := hQ.2
    exact ⟨t, ht, hts, hQ.1⟩
  -- membership in the built entry
  have hne : (hostsOf ing).isEmpty = false := by
    cases hE : hostsOf ing with
    | nil => rw [hE] at hh; cases hh
    | cons a l => simp
  simp only [buildIngressInfo, hne, Bool.false_eq_true, if_false]
  refine List.mem_map.mpr ⟨h, hh, ?_⟩
  rw [hcn]
  simp [hce]

/-- Witness for C5: the spec's scenario — route `default/webapp`, TLS section
`(hosts: [webapp.local], secretName: webapp-tls)`, certificate lookup
unavailable — keeps the binding with the certificate name and no expiry, and
the built entry is exactly the scenario's expected entry. -/
theorem missing_cert_keeps_binding_witness :
    { host := "webapp.local",
      certificate := some { name := "webapp-tls", expires := none } } ∈
      (buildIngressInfo (fun _ => none) (fun _ => .error ()) (fun _ => none)
        { ns := "default", name := "webapp", rules := [],
          tls := [ { hosts := ["webapp.local"], secretName := "webapp-tls" } ] }).hosts ∧
    buildIngressInfo (fun _ => none) (fun _ => .error ()) (fun _ => none)
        { ns := "default", name := "webapp", rules := [],
          tls := [ { hosts := ["webapp.local"], secretName := "webapp-tls" } ] } =
      { ns := "default", name := "webapp",
        hosts := [ { host := "webapp.local",
                     certificate := some { name := "webapp-tls", expires := none } } ] } :=
  ⟨missing_cert_keeps_binding (fun _ => none) (fun _ => .error ()) (fun _ => none)
      { ns := "default", name := "webapp", rules := [],
        tls := [ { hosts := ["webapp.local"], secretName := "webapp-tls" } ] }
      "webapp.local" "webapp-tls" (by decide) (by decide) (Or.inl rfl),
    by decide⟩

/-! ## Reporter (`HTTPReporter.sendReport` / `Start`)

The send loop is embedded with model time advancing only in `time.Sleep`
(the HTTP call itself is instantaneous in the model): `out attempt` is the
outcome of the attempt-numbered request, `cancelAt` the instant the context
is cancelled (`none`: never). Faithful to the Go code, the cancellation check
(`select { case <-ctx.Done(): ... default: }`) happens at the top of each
attempt, the backoff is `time.Duration(attempt) * 2` and is slept with
`time.Sleep`, which does not observe the context. -/

/-- What a single HTTP attempt produces: a transport-level error
(`r.client.Do` fails) or a response status code. -/
inductive AttemptOutcome
  | transportError
  | status (code : Nat)
  deriving DecidableEq, Repr

/-- How `sendReport` returns: `cancelled` is `ctx.Err()` from the
top-of-attempt check; `delivered` is the 2xx success (`return nil`);
`transportFail` is the final-attempt transport error (`return err`);
`badStatus` is the final-attempt non-2xx (`received non-success status
code`); `exhausted` is the post-loop `failed to send report after 3 attempts`
return, unreachable from a fresh cycle. -/
inductive SendResult
  | cancelled
  | delivered (code : Nat)
  | transportFail
  | badStatus (code : Nat)
  | exhausted
  deriving DecidableEq, Repr

/-- The observable trace of one `sendReport` cycle: its result, the model
time at return (only sleeps advance time), the backoff sleeps performed in
order, and the number of HTTP requests issued. -/
structure SendRun where
  result : SendResult
  finish : Nat
  sleeps : List Nat
  requests : Nat
  deriving DecidableEq, Repr

/-- Whether the cancellation signal has fired by instant `now`. -/
def cancelFired (cancelAt : Option Nat) (now : Nat) : Bool :=
  match cancelAt with
  | none => false
  | some c => decide (c ≤ now)

/-- The retry loop of `sendReport` (`for attempt := 1; attempt <= maxRetries;
attempt++`): check cancellation, issue the request, return on 2xx, on a final
attempt return the failure, otherwise sleep `attempt * 2` and continue. -/
def sendGo (out : Nat → AttemptOutcome) (cancelAt : Option Nat) :
    Nat → Nat → Nat → SendRun
  | 0, _, now => ⟨.exhausted, now, [], 0⟩
  | remaining + 1, attempt, now =>
      if cancelFired cancelAt now then ⟨.cancelled, now, [], 0⟩
      else
        match out attempt with
        | .status code =>
            if 200 ≤ code ∧ code < 300 then ⟨.delivered code, now, [], 1⟩
            else if remaining = 0 then ⟨.badStatus code, now, [], 1⟩
            else
              let backoff := attempt * 2
              let rest := sendGo out cancelAt remaining (attempt + 1) (now + backoff)
              ⟨rest.result, rest.finish, backoff :: rest.sleeps, rest.requests + 1⟩
        | .transportError =>
            if remaining = 0 then ⟨.transportFail, now, [], 1⟩
            else
              let backoff := attempt * 2
              let rest := sendGo out cancelAt remaining (attempt + 1) (now + backoff)
              ⟨rest.result, rest.finish, backoff :: rest.sleeps, rest.requests + 1⟩

/-- `maxRetries := 3` in `sendReport`. -/
def maxRetries : Nat := 3

/-- One `sendReport` cycle: up to `maxRetries` attempts starting at attempt 1,
model time 0. -/
def sendReportGo (out : Nat → AttemptOutcome) (cancelAt : Option Nat) : SendRun :=
  sendGo out cancelAt maxRetries 1 0

/-- The consecutive-failure counter after a cycle: `sendReport` resets it to 0
on a 2xx success; on any error return, `Start`'s `handleReportError`
increments it. -/
def cycleFailureCount (fc : Nat) (run : SendRun) : Nat :=
  match run.result with
  | .delivered _ => 0
  | _ => fc + 1

/-- An attempt that is not a 2xx success (transport error or non-2xx status). -/
def failedAttempt : AttemptOutcome → Prop
  | .transportError => True
  | .status code => code < 200 ∨ 300 ≤ code

instance : DecidablePred failedAttempt := fun o => by
  cases o <;> simp [failedAttempt] <;> infer_instance

/-- The outer timer loop of `Start`: at each tick (in order), `select` returns
when the context is cancelled, otherwise a cycle runs at that tick. Returns
the instants at which cycles run. -/
def startCycles (c : Nat) : List Nat → List Nat
  | [] => []
  | t :: rest => if c ≤ t then [] else t :: startCycles c rest

lemma cancelFired_none (n : Nat) : cancelFired none n = false := rfl

lemma sendGo_requests_le (out : Nat → AttemptOutcome) (cancelAt : Option Nat) :
    ∀ (remaining attempt now : Nat),
      (sendGo out cancelAt remaining attempt now).requests ≤ remaining := by
  intro remaining
  induction remaining with
  | zero => intro attempt now; simp [sendGo]
  | succ r ih =>
    intro attempt now
    rw [sendGo]
    by_cases hc : cancelFired cancelAt now
    · simp [hc]
    · simp only [hc, Bool.false_eq_true, if_false]
      cases out attempt with
      | status code =>
        by_cases hs : 200 ≤ code ∧ code < 300
        · simp [hs]
        · by_cases hr : r = 0
          · simp [hs, hr]
          · simp only [hs, if_false, hr]
            show (sendGo out cancelAt r (attempt + 1) (now + attempt * 2)).requests + 1 ≤ r + 1
            have := ih (attempt + 1) (now + attempt * 2)
            omega
      | transportError =>
        by_cases hr : r = 0
        · simp [hr]
        · simp only [hr, if_false]
          show (sendGo out cancelAt r (attempt + 1) (now + attempt * 2)).requests + 1 ≤ r + 1
          have := ih (attempt + 1) (now + attempt * 2)
          omega

/-- C2: per cycle at most `maxRetries = 3` requests are issued; a 2xx attempt
ends the cycle as a delivery and resets the consecutive-failure counter to 0;
each failed non-final attempt is followed by a backoff of `attempt * 2` time
units — in particular a cycle that succeeds on the third attempt sleeps
exactly 2 then 4 units. -/
theorem sendReport_retry_spec (out : Nat → AttemptOutcome) (fc code : Nat)
    (hc1 : 200 ≤ code) (hc2 : code < 300) :
    (sendReportGo out none).requests ≤ 3 ∧
    (out 1 = .status code →
      sendReportGo out none = ⟨.delivered code, 0, [], 1⟩ ∧
      cycleFailureCount fc (sendReportGo out none) = 0) ∧
    (failedAttempt (out 1) → out 2 = .status code →
      (sendReportGo out none).result = .delivered code ∧
      (sendReportGo out none).sleeps = [2] ∧
      (sendReportGo out none).requests = 2 ∧
      cycleFailureCount fc (sendReportGo out none) = 0) ∧
    (failedAttempt (out 1) → failedAttempt (out 2) → out 3 = .status code →
      (sendReportGo out none).result = .delivered code ∧
      (sendReportGo out none).sleeps = [2, 4] ∧
      (sendReportGo out none).requests = 3 ∧
      cycleFailureCount fc (sendReportGo out none) = 0) := by
  refine ⟨sendGo_requests_le out none 3 1 0, ?_, ?_, ?_⟩
  · intro h1
    have : sendReportGo out none = ⟨.delivered code, 0, [], 1⟩ := by
      simp [sendReportGo, maxRetries, sendGo, cancelFired, h1, hc1, hc2]
    exact ⟨this, by simp [cycleFailureCount, this]⟩
  · intro hf1 h2
    have hrun : sendReportGo out none = ⟨.delivered code, 2, [2], 2⟩ := by
      cases ho1 : out 1 with
      | transportError =>
        simp [sendReportGo, maxRetries, sendGo, cancelFired, ho1, h2, hc1, hc2]
      | status c1 =>
        rw [ho1] at hf1
        simp only [failedAttempt] at hf1
        have hno : ¬(200 ≤ c1 ∧ c1 < 300) := by omega
        simp [sendReportGo, maxRetries, sendGo, cancelFired, ho1, h2, hno, hc1, hc2]
    refine ⟨by rw [hrun], by rw [hrun], by rw [hrun], by simp [cycleFailureCount, hrun]⟩
  · intro hf1 hf2 h3
    have hrun : sendReportGo out none = ⟨.delivered code, 6, [2, 4], 3⟩ := by
      cases ho1 : out 1 with
      | transportError =>
        cases ho2 : out 2 with
        | transportError =>
          simp [sendReportGo, maxRetries, sendGo, cancelFired, ho1, ho2, h3, hc1, hc2]
        | status c2 =>
          rw [ho2] at hf2
          simp only [failedAttempt] at hf2
          have hno2 : ¬(200 ≤ c2 ∧ c2 < 300) := by omega
          simp [sendReportGo, maxRetries, sendGo, cancelFired, ho1, ho2, h3, hno2, hc1, hc2]
      | status c1 =>
        rw [ho1] at hf1
        simp only [failedAttempt] at hf1
        have hno1 : ¬(200 ≤ c1 ∧ c1 < 300) := by omega
        cases ho2 : out 2 with
        | transportError =>
          simp [sendReportGo, maxRetries, sendGo, cancelFired, ho1, ho2, h3, hno1, hc1, hc2]
        | status c2 =>
          rw [ho2] at hf2
          simp only [failedAttempt] at hf2
          have hno2 : ¬(200 ≤ c2 ∧ c2 < 300) := by omega
          simp [sendReportGo, maxRetries, sendGo, cancelFired, ho1, ho2, h3, hno1, hno2,
            hc1, hc2]
    refine ⟨by rw [hrun], by rw [hrun], by rw [hrun], by simp [cycleFailureCount, hrun]⟩

/-- The spec's retry scenario: connection refused twice, then a 200. -/
def scenarioTwoFailsThen200 : Nat → AttemptOutcome :=
  fun n => if n ≤ 2 then .transportError else .status 200

/-- Witness for C2: on the concrete scenario (transport errors on attempts 1
and 2, status 200 on attempt 3) the cycle performs exactly the two backoff
waits 2 then 4, delivers, and resets the failure counter from 7 to 0. -/
theorem sendReport_retry_spec_witness :
    (sendReportGo scenarioTwoFailsThen200 none).result = .delivered 200 ∧
    (sendReportGo scenarioTwoFailsThen200 none).sleeps = [2, 4] ∧
    (sendReportGo scenarioTwoFailsThen200 none).requests = 3 ∧
    cycleFailureCount 7 (sendReportGo scenarioTwoFailsThen200 none) = 0 :=
  (sendReport_retry_spec scenarioTwoFailsThen200 7 200 (by decide) (by decide)).2.2.2
    (by decide) (by decide) (by decide)

lemma cancelFired_some_iff (c now : Nat) :
    cancelFired (some c) now = true ↔ c ≤ now := by
  simp [cancelFired]

/-- Cancellation is only observed at the top-of-attempt checks: a cancelled
run returns no earlier than the signal, and at most one full backoff
(`attempt * 2 ≤ 4` for `maxRetries = 3`) after it. -/
lemma sendGo_cancelled_bounds (out : Nat → AttemptOutcome) (c : Nat) :
    ∀ (remaining attempt now : Nat), attempt + remaining ≤ 4 →
      (sendGo out (some c) remaining attempt now).result = .cancelled →
      c ≤ (sendGo out (some c) remaining attempt now).finish ∧
      ((sendGo out (some c) remaining attempt now).finish ≤ now ∨
        (sendGo out (some c) remaining attempt now).finish ≤ c + 4) := by
  intro remaining
  induction remaining with
  | zero =>
    intro attempt now _ hres
    simp [sendGo] at hres
  | succ r ih =>
    intro attempt now hb
    rw [sendGo]
    by_cases hcf : cancelFired (some c) now = true
    · rw [if_pos hcf]
      intro _
      exact ⟨(cancelFired_some_iff c now).mp hcf, Or.inl le_rfl⟩
    · rw [if_neg hcf]
      have hnow : now < c := by
        rcases Nat.lt_or_ge now c with h | h
        · exact h
        · exact absurd ((cancelFired_some_iff c now).mpr h) hcf
      cases ho : out attempt with
      | status code =>
        dsimp only
        by_cases hs : 200 ≤ code ∧ code < 300
        · rw [if_pos hs]
          intro hres; cases hres
        · rw [if_neg hs]
          by_cases hr : r = 0
          · rw [if_pos hr]
            intro hres; cases hres
          · rw [if_neg hr]
            dsimp only
            intro hres
            have hih := ih (attempt + 1) (now + attempt * 2) (by omega) hres
            have hatt : attempt * 2 ≤ 4 := by omega
            exact ⟨hih.1, Or.inr (by omega)⟩
      | transportError =>
        dsimp only
        by_cases hr : r = 0
        · rw [if_pos hr]
          intro hres; cases hres
        · rw [if_neg hr]
          dsimp only
          intro hres
          have hih := ih (attempt + 1) (now + attempt * 2) (by omega) hres
          have hatt : attempt * 2 ≤ 4 := by omega
          exact ⟨hih.1, Or.inr (by omega)⟩

/-- C8 counterexample: the inter-attempt backoff wait does not observe the
cancellation signal. With every attempt failing at transport level and the
context cancelled at instant 1 — i.e. during the first backoff wait, which
spans (0, 2) — the cycle still sleeps the full 2 units and returns only at
instant 2; a wait that aborted promptly would have returned by instant 1. -/
theorem backoff_wait_not_cancellable :
    (sendReportGo (fun _ => .transportError) (some 1)).result = .cancelled ∧
    (sendReportGo (fun _ => .transportError) (some 1)).sleeps = [2] ∧
    (sendReportGo (fun _ => .transportError) (some 1)).finish = 2 ∧
    ¬((sendReportGo (fun _ => .transportError) (some 1)).finish ≤ 1) := by
  decide

/-- C8 (amended): the per-attempt send loop checks the cancellation signal
before each attempt and, once it has fired, aborts with the
cancellation-specific result (`ctx.Err()`), which is distinct from every
delivery-failure result; the outer timer loop runs no cycle at or after the
signal and terminates. The inter-attempt backoff wait, however, is a plain
`time.Sleep` that does not observe the signal: a cancelled cycle returns at
the first attempt-start check after the signal — no earlier than the signal,
and at most one full backoff (4 units) after it — rather than aborting the
wait the moment the signal fires. -/
theorem reporter_cancellation_behavior (out : Nat → AttemptOutcome) (c : Nat)
    (ticks : List Nat) :
    (c = 0 → sendReportGo out (some c) = ⟨.cancelled, 0, [], 0⟩) ∧
    (∀ code : Nat, SendResult.cancelled ≠ .delivered code ∧
      SendResult.cancelled ≠ .badStatus code) ∧
    SendResult.cancelled ≠ .transportFail ∧
    ((sendReportGo out (some c)).result = .cancelled →
      c ≤ (sendReportGo out (some c)).finish ∧
      (sendReportGo out (some c)).finish ≤ c + 4) ∧
    (∀ t ∈ startCycles c ticks, t < c) ∧
    (startCycles c ticks).length ≤ ticks.length := by
  refine ⟨?_, ?_, ?_, ?_, ?_, ?_⟩
  · rintro rfl
    simp [sendReportGo, maxRetries, sendGo, cancelFired]
  · intro code
    refine ⟨fun h => ?_, fun h => ?_⟩ <;> cases h
  · intro h
    cases h
  · intro hres
    have h := sendGo_cancelled_bounds out c 3 1 0 (by omega) hres
    show c ≤ (sendGo out (some c) 3 1 0).finish ∧
      (sendGo out (some c) 3 1 0).finish ≤ c + 4
    omega
  · induction ticks with
    | nil => intro t ht; cases ht
    | cons t0 rest ih =>
      intro t ht
      rw [startCycles] at ht
      by_cases h0 : c ≤ t0
      · rw [if_pos h0] at ht; cases ht
      · rw [if_neg h0] at ht
        rcases List.mem_cons.mp ht with rfl | hrest
        · omega
        · exact ih t hrest
  · induction ticks with
    | nil => simp [startCycles]
    | cons t0 rest ih =>
      rw [startCycles]
      by_cases h0 : c ≤ t0
      · simp [h0]
      · simp only [if_neg h0, List.length_cons]
        omega

/-- Witness for C8 (amended): with transport errors throughout — a signal
already fired at cycle start aborts before any request; a signal at instant 1
yields a cancelled cycle finishing between 1 and 5; ticks at 10 and 20 after
a signal at 1 run no cycle. -/
theorem reporter_cancellation_behavior_witness :
    sendReportGo (fun _ => .transportError) (some 0) = ⟨.cancelled, 0, [], 0⟩ ∧
    (1 ≤ (sendReportGo (fun _ => .transportError) (some 1)).finish ∧
      (sendReportGo (fun _ => .transportError) (some 1)).finish ≤ 1 + 4) ∧
    (∀ t ∈ startCycles 1 [10, 20], t < 1) :=
  ⟨(reporter_cancellation_behavior (fun _ => .transportError) 0 []).1 rfl,
   (reporter_cancellation_behavior (fun _ => .transportError) 1 []).2.2.2.1 (by decide),
   (reporter_cancellation_behavior (fun _ => .transportError) 1 [10, 20]).2.2.2.2.1⟩

/-! ## Configuration loading (`config.Load`, `config.LoadFromCRD`)

`Load` reads three environment variables (with defaults) and parses the
interval with Go's `time.ParseDuration`; `LoadFromCRD` reads the
`ClusterObserver` resource and parses its interval. Neither validates the
endpoint string. `time.ParseDuration` (Go standard library) is embedded
below over the characters of the input; digits, `.`, `+`, `-` and all unit
names are single-byte or whole multi-byte characters, so byte-wise and
character-wise scans agree. The one deliberate deviation: Go computes the
contribution of a fractional part in `float64`
(`uint64(float64(f) * (float64(unit) / scale))`); the model uses exact
integer arithmetic (`f * unit / scale`), which can differ from the float
result only in low-order digits of the parsed value for extreme fractional
inputs, not in whether parsing succeeds (except exactly at the `2^63`
overflow boundary). -/

/-- Go `time` unit map: `ns`, `us`, `µs` (U+00B5), `μs` (U+03BC), `ms`, `s`,
`m`, `h`, valued in nanoseconds. -/
def unitMap : List (String × Nat) :=
  [("ns", 1), ("us", 1000), ("µs", 1000), ("μs", 1000),
   ("ms", 1000000), ("s", 1000000000), ("m", 60000000000), ("h", 3600000000000)]

/-- Whether a character is an ASCII digit (`'0' <= c && c <= '9'`). -/
def isDigitChar (c : Char) : Bool := decide ('0' ≤ c ∧ c ≤ '9')

/-- Go `time.leadingInt`: consume leading digits into `x`, failing on
overflow past `1<<63` (the pre-multiplication guard is `x > (1<<63)/10`). -/
def leadingIntGo : Nat → List Char → Except Unit (Nat × List Char)
  | x, [] => .ok (x, [])
  | x, c :: rest =>
      if ¬isDigitChar c then .ok (x, c :: rest)
      else if x > 922337203685477580 then .error ()
      else
        let y := x * 10 + (c.toNat - 48)
        if y > 9223372036854775808 then .error ()
        else leadingIntGo y rest

/-- Go `time.leadingFraction`: consume leading digits into `x` with the
running `scale`; once the value would overflow, keep consuming digits but
stop updating (`overflow` flag). -/
def leadingFractionGo : Nat → Nat → Bool → List Char → Nat × Nat × List Char
  | x, scale, _, [] => (x, scale, [])
  | x, scale, overflow, c :: rest =>
      if ¬isDigitChar c then (x, scale, c :: rest)
      else if overflow then leadingFractionGo x scale true rest
      else if x > 922337203685477580 then leadingFractionGo x scale true rest
      else
        let y := x * 10 + (c.toNat - 48)
        if y > 9223372036854775808 then leadingFractionGo x scale true rest
        else leadingFractionGo y (scale * 10) false rest

/-- The unit scan of `ParseDuration`: consume characters until a digit or
`'.'` (`for ; i < len(s); i++ { c := s[i]; if c == '.' || isDigit(c) ... }`). -/
def spanUnit : List Char → List Char × List Char
  | [] => ([], [])
  | c :: rest =>
      if c = '.' ∨ isDigitChar c then ([], c :: rest)
      else
        let (u, r) := spanUnit rest
        (c :: u, r)

/-- The main loop of Go `time.ParseDuration`: parse
`([0-9]*(\.[0-9]*)?[a-z]+)+` groups, accumulating nanoseconds in `d` with
overflow checks against `1<<63`. `fuel` only bounds the recursion; every
iteration consumes at least the (nonempty) unit, so `input.length + 1` fuel
never runs out. -/
def parseDurationLoop (outMax : Nat := 9223372036854775808) :
    Nat → Nat → List Char → Option Nat
  | 0, _, _ => none
  | _ + 1, d, [] => some d
  | fuel + 1, d, c :: s0 =>
      if ¬(c = '.' ∨ isDigitChar c) then none
      else
        match leadingIntGo 0 (c :: s0) with
        | .error _ => none
        | .ok (v, s1) =>
            let pre : Bool := decide (s1.length ≠ (c :: s0).length)
            let fps :=
              match s1 with
              | '.' :: srest =>
                  let fs := leadingFractionGo 0 1 false srest
                  (fs.1, fs.2.1, fs.2.2, decide (fs.2.2.length ≠ srest.length))
              | _ => (0, 1, s1, false)
            match fps with
            | (f, scale, s2, post) =>
              if ¬pre ∧ ¬post then none
              else
                match spanUnit s2 with
                | (u, s4) =>
                  if u = [] then none
                  else
                    match unitMap.lookup (String.mk u) with
                    | none => none
                    | some unit =>
                        if v > outMax / unit then none
                        else
                          let v1 := v * unit
                          let v2 := if f > 0 then v1 + f * unit / scale else v1
                          if f > 0 ∧ v2 > outMax then none
                          else
                            let d1 := d + v2
                            if d1 > outMax then none
                            else parseDurationLoop outMax fuel d1 s4

/-- Go `time.ParseDuration`: optional sign, the special case `"0"`, the group
loop, and the final bounds checks; the result is the signed duration in
nanoseconds (`none` models a non-nil error). -/
def parseDuration (s : String) : Option Int :=
  let cs := s.toList
  let signed :=
    match cs with
    | c :: rest =>
        if c = '-' then (true, rest)
        else if c = '+' then (false, rest)
        else (false, cs)
    | [] => (false, cs)
  match signed with
  | (neg, cs1) =>
    if cs1 = ['0'] then some 0
    else if cs1 = [] then none
    else
      match parseDurationLoop 9223372036854775808 (cs1.length + 1) 0 cs1 with
      | none => none
      | some d =>
          if neg then some (-(d : Int))
          else if d > 9223372036854775807 then none
          else some (d : Int)

/-- Go struct `config.Config` (`ClusterName`, `ReportEndpoint`,
`ReportInterval`), the interval in nanoseconds. -/
structure Config where
  clusterName : String
  reportEndpoint : String
  reportInterval : Int
  deriving DecidableEq, Repr

/-- Go `config.getEnv`: the variable's value unless it is unset or empty. -/
def getEnv (env : String → String) (key defVal : String) : String :=
  if env key ≠ "" then env key else defVal

/-- Go `config.Load`: defaults `local-cluster`,
`http://localhost:8080/report`, `30s`; fails exactly when
`time.ParseDuration` rejects the interval string; the endpoint is taken
verbatim without validation. -/
def Load (env : String → String) : Option Config :=
  match parseDuration (getEnv env "REPORT_INTERVAL" "30s") with
  | none => none
  | some d =>
      some { clusterName := getEnv env "CLUSTER_NAME" "local-cluster"
             reportEndpoint := getEnv env "REPORT_ENDPOINT" "http://localhost:8080/report"
             reportInterval := d }

/-- The fields of the `ClusterObserver` spec read by `LoadFromCRD`. -/
structure ClusterObserverSpec where
  clusterName : String
  reportEndpoint : String
  reportInterval : String
  deriving DecidableEq, Repr

/-- Go `config.LoadFromCRD`: a failed `Get` yields `(nil, nil)` (no reporting,
not an error); otherwise only the interval is parsed — the endpoint is again
taken verbatim. -/
def LoadFromCRD (get : Option ClusterObserverSpec) : Except Unit (Option Config) :=
  match get with
  | none => .ok none
  | some spec =>
      match parseDuration spec.reportInterval with
      | none => .error ()
      | some d =>
          .ok (some { clusterName := spec.clusterName
                      reportEndpoint := spec.reportEndpoint
                      reportInterval := d })

/-- C9 counterexample: configuration loading does NOT fail on an invalid
report endpoint. With a valid interval (`30s` default used here via an
explicit variable) and `REPORT_ENDPOINT` set to a bare line feed — a string
Go's `url.Parse` rejects (`invalid control character in URL`) and that is not
a URL under any reading — `Load` succeeds and returns the string verbatim,
whereas the claim requires a fatal configuration error. -/
theorem load_accepts_invalid_endpoint :
    Load (fun k => if k = "REPORT_ENDPOINT" then "\n"
                   else if k = "REPORT_INTERVAL" then "30s" else "") =
      some { clusterName := "local-cluster", reportEndpoint := "\n",
             reportInterval := 30000000000 } := by
  decide

/-- C9 (amended): configuration loading fails exactly when the interval
string is not a valid Go duration; the endpoint is never validated — any
string, URL or not, is accepted and returned verbatim — and on success the
configured cluster label, endpoint and parsed interval are returned exactly
(with the documented defaults for unset or empty variables). `LoadFromCRD`
likewise parses only the interval, and returns no configuration and no error
when the resource is absent. -/
theorem load_validates_only_interval (env : String → String) :
    ((Load env).isSome ↔
      (parseDuration (getEnv env "REPORT_INTERVAL" "30s")).isSome) ∧
    (∀ d : Int, parseDuration (getEnv env "REPORT_INTERVAL" "30s") = some d →
      Load env = some { clusterName := getEnv env "CLUSTER_NAME" "local-cluster"
                        reportEndpoint :=
                          getEnv env "REPORT_ENDPOINT" "http://localhost:8080/report"
                        reportInterval := d }) ∧
    (parseDuration (getEnv env "REPORT_INTERVAL" "30s") = none → Load env = none) ∧
    (∀ spec : ClusterObserverSpec,
      (parseDuration spec.reportInterval = none →
        LoadFromCRD (some spec) = .error ()) ∧
      (∀ d : Int, parseDuration spec.reportInterval = some d →
        LoadFromCRD (some spec) =
          .ok (some { clusterName := spec.clusterName
                      reportEndpoint := spec.reportEndpoint
                      reportInterval := d }))) ∧
    LoadFromCRD none = .ok none := by
  refine ⟨?_, ?_, ?_, ?_, rfl⟩
  · cases h : parseDuration (getEnv env "REPORT_INTERVAL" "30s") <;>
      simp [Load, h]
  · intro d hd
    simp [Load, hd]
  · intro h
    simp [Load, h]
  · intro spec
    constructor
    · intro h
      simp [LoadFromCRD, h]
    · intro d hd
      simp [LoadFromCRD, hd]

/-- Witness for C9 (amended): the test file's "custom values" case —
`prod-cluster`, `http://collector.example.com/report`, `1m` — loads to
exactly those values with a 60-second interval. -/
theorem load_validates_only_interval_witness :
    Load (fun k => if k = "CLUSTER_NAME" then "prod-cluster"
                   else if k = "REPORT_ENDPOINT" then "http://collector.example.com/report"
                   else if k = "REPORT_INTERVAL" then "1m" else "") =
      some { clusterName := "prod-cluster",
             reportEndpoint := "http://collector.example.com/report",
             reportInterval := 60000000000 } :=
  (load_validates_only_interval
      (fun k => if k = "CLUSTER_NAME" then "prod-cluster"
                else if k = "REPORT_ENDPOINT" then "http://collector.example.com/report"
                else if k = "REPORT_INTERVAL" then "1m" else "")).2.1
    60000000000 (by decide)

end CertObserver
